import Mathlib

/-!
Verification of the Conway's Game of Life simulation core (`src/main.py`).

The grid is the numpy 2-D integer array `self.grid` (entries 0 or 1), embedded
as a row-major list of rows of integers.  `GameOfLife.update_state` (lines
102-108) computes the 8-neighbor sum with toroidal wraparound via
`np.roll(np.roll(grid, i, 0), j, 1)` summed over `(i, j)` in
`{-1,0,1}^2 \ {(0,0)}`, and writes the standard Game-of-Life rule back into
the grid.  `update_plot` (lines 112-128) appends `np.sum(grid)` to
`live_history` and recomputes the occupancy and growth series from it.
`clear_grid`, `randomize_grid` and `mousePressEvent` are embedded likewise.
-/

namespace Conway

/-- A grid is a row-major list of rows of integer cells, mirroring the 2-D
numpy array `self.grid` whose entries are Python ints. -/
abbrev Grid := List (List ℤ)

/-- Number of rows, `grid.shape[0]`. -/
def gridHeight (g : Grid) : ℕ := g.length

/-- Number of columns, `grid.shape[1]` (length of the first row). -/
def gridWidth (g : Grid) : ℕ := (g.headD []).length

/-- `grid[y][x]`: the cell in row `y`, column `x` (0 when out of range;
in-range accesses are the only ones the development reasons about). -/
def cellAt (g : Grid) (y x : ℕ) : ℤ := (g.getD y []).getD x 0

/-- Reduce an integer index modulo the dimension `n`, as numpy's cyclic
indexing arithmetic does (`%` on a positive modulus is nonnegative). -/
def wrap (n : ℕ) (i : ℤ) : ℕ := (i % (n : ℤ)).toNat

/-- The generator of line 104: pairs `(i, j)` with `i, j ∈ (-1, 0, 1)`
keeping those with `i != 0 or j != 0`. -/
def offsets : List (ℤ × ℤ) :=
  ((([-1, 0, 1] : List ℤ).flatMap (fun i =>
      ([-1, 0, 1] : List ℤ).map (fun j => (i, j)))).filter
    (fun p => p.1 != 0 || p.2 != 0))

/-- The cell of `np.roll(np.roll(grid, i, 0), j, 1)` at row `y`, column `x`:
rolling by `i` along axis 0 and `j` along axis 1 places
`grid[(y-i) % h][(x-j) % w]` there. -/
def rollCell (g : Grid) (i j : ℤ) (y x : ℕ) : ℤ :=
  cellAt g (wrap (gridHeight g) ((y : ℤ) - i)) (wrap (gridWidth g) ((x : ℤ) - j))

/-- The 8-neighbor sum of lines 103-105: the elementwise sum of the eight
rolled copies of the grid, evaluated at row `y`, column `x`. -/
def neighbors (g : Grid) (y x : ℕ) : ℤ :=
  (offsets.map (fun p => rollCell g p.1 p.2 y x)).sum

/-- Build an `h × w` grid whose cell `(y, x)` holds `f y x`. -/
def mkG (h w : ℕ) (f : ℕ → ℕ → ℤ) : Grid :=
  (List.range h).map (fun y => (List.range w).map (fun x => f y x))

/-- Lines 102-108 (`update_state`, the pure grid part): the new grid has a 1
at `(y, x)` exactly when `(grid == 1) & ((neighbors == 2) | (neighbors == 3))`
or `(grid == 0) & (neighbors == 3)` holds there, and a 0 otherwise
(`new_grid.astype(int)` written back over the whole grid). -/
def update_state (g : Grid) : Grid :=
  mkG (gridHeight g) (gridWidth g) (fun y x =>
    if (cellAt g y x = 1 ∧ (neighbors g y x = 2 ∨ neighbors g y x = 3)) ∨
       (cellAt g y x = 0 ∧ neighbors g y x = 3) then 1 else 0)

/-- The spec's `neighbor_count(x, y)`: sum of the alive state over the 8
positions `(x+dx, y+dy)`, `dx, dy ∈ {-1,0,1}` excluding `(0,0)`, coordinates
taken modulo width/height (toroidal wraparound). -/
def neighbor_count (g : Grid) (x y : ℕ) : ℤ :=
  (offsets.map (fun p =>
    cellAt g (wrap (gridHeight g) ((y : ℤ) + p.2))
             (wrap (gridWidth g) ((x : ℤ) + p.1)))).sum

/-- `g` is a rectangular `h × w` grid (the shape invariant of the numpy
array). -/
def Rect (h w : ℕ) (g : Grid) : Prop :=
  g.length = h ∧ ∀ row ∈ g, row.length = w

/-- Line 139 (`self.grid[:] = 0`): every cell becomes 0, shape unchanged. -/
def clearCells (g : Grid) : Grid :=
  g.map (fun row => row.map (fun _ => 0))

/-- A freshly sampled `grid_size × grid_size` 0/1 grid,
`(np.random.rand(gs, gs) < 0.2).astype(int)` (lines 39 and 146); the random
draws are abstracted into the boolean source `r`. -/
def randomCells (gs : ℕ) (r : ℕ → ℕ → Bool) : Grid :=
  mkG gs gs (fun y x => if r y x then 1 else 0)

/-- Line 160 (`self.grid[y][x] = 1 - self.grid[y][x]`): toggle one cell. -/
def toggle_cell (g : Grid) (y x : ℕ) : Grid :=
  g.set y ((g.getD y []).set x (1 - cellAt g y x))

/-- Lines 156-161 (`mousePressEvent`, after the pixel-to-cell mapping):
toggle cell `(x, y)` when `0 <= x < grid_size and 0 <= y < grid_size`,
otherwise do nothing. -/
def mousePress (gs : ℕ) (g : Grid) (x y : ℤ) : Grid :=
  if 0 ≤ x ∧ x < (gs : ℤ) ∧ 0 ≤ y ∧ y < (gs : ℤ) then
    toggle_cell g y.toNat x.toNat
  else g

/-- `np.sum(self.grid)` (line 114): the number of live cells. -/
def liveCount (g : Grid) : ℤ := (g.map List.sum).sum

/-- Line 118: `occupancy = [(v / (self.grid_size ** 2)) * 100 for v in
self.live_history]`, with Python's true division read as exact rational
division. -/
def occupancy_series (gs : ℕ) (hist : List ℤ) : List ℚ :=
  hist.map (fun v : ℤ => ((v : ℚ) / ((gs : ℚ) ^ 2)) * 100)

/-- Line 119: `growth = [0] + [live_history[i] - live_history[i-1] for i in
range(1, len(live_history))]`. -/
def growth_series (hist : List ℤ) : List ℤ :=
  [0] ++ (List.range' 1 (hist.length - 1)).map
    (fun i => hist.getD i 0 - hist.getD (i - 1) 0)

/-- The mutable simulation state of the `GameOfLife` widget: the grid, the
generation counter and the recorded live-cell history. -/
structure GameState where
  grid : Grid
  generation : ℕ
  live_history : List ℤ

/-- Lines 112-115 (`update_plot`, the state-changing part): bump the
generation and append `np.sum(grid)` to `live_history`; the series plotted
afterwards are recomputed from `live_history` by `occupancy_series` and
`growth_series`. -/
def update_plot (s : GameState) : GameState :=
  GameState.mk s.grid (s.generation + 1) (s.live_history ++ [liveCount s.grid])

/-- Lines 102-110 (`update_state` as a whole): replace the grid with the next
generation, then `update_plot`. -/
def update_state_op (s : GameState) : GameState :=
  update_plot (GameState.mk (update_state s.grid) s.generation s.live_history)

/-- Lines 140-141 of `clear_grid` / 147-148 of `randomize_grid`, which are
also the spec's `MetricsTracker.reset()`: empty the history and reset the
generation counter. -/
def resetMetrics (s : GameState) : GameState :=
  GameState.mk s.grid 0 []

/-- Lines 138-143 (`clear_grid`): zero the grid, reset the metrics, then
`update_plot`. -/
def clear_grid (s : GameState) : GameState :=
  update_plot (resetMetrics (GameState.mk (clearCells s.grid) s.generation s.live_history))

/-- Lines 145-150 (`randomize_grid`): resample the grid, reset the metrics,
then `update_plot`. -/
def randomize_grid (gs : ℕ) (r : ℕ → ℕ → Bool) (s : GameState) : GameState :=
  update_plot (resetMetrics (GameState.mk (randomCells gs r) s.generation s.live_history))

/-- Lines 156-161 (`mousePressEvent` at the state level). -/
def mousePress_op (gs : ℕ) (x y : ℤ) (s : GameState) : GameState :=
  GameState.mk (mousePress gs s.grid x y) s.generation s.live_history

/-- Lines 39-43 (`__init__`): a random grid, generation 0, empty history. -/
def initState (gs : ℕ) (r : ℕ → ℕ → Bool) : GameState :=
  GameState.mk (randomCells gs r) 0 []

/-- The states reachable by driving the widget: start in `initState` and
apply any sequence of `update_state`, `clear_grid`, `randomize_grid` and
`mousePressEvent`. -/
inductive Reachable (gs : ℕ) : GameState → Prop
  | init (r : ℕ → ℕ → Bool) : Reachable gs (initState gs r)
  | step (s : GameState) : Reachable gs s → Reachable gs (update_state_op s)
  | clear (s : GameState) : Reachable gs s → Reachable gs (clear_grid s)
  | rand (s : GameState) (r : ℕ → ℕ → Bool) :
      Reachable gs s → Reachable gs (randomize_grid gs r s)
  | press (s : GameState) (x y : ℤ) :
      Reachable gs s → Reachable gs (mousePress_op gs x y s)



/-! ### Basic facts about the embedding -/

theorem offsets_eq :
    offsets = [(-1, -1), (-1, 0), (-1, 1), (0, -1), (0, 1), (1, -1), (1, 0), (1, 1)] := by
  decide

theorem wrap_lt (n : ℕ) (hn : 0 < n) (i : ℤ) : wrap n i < n := by
  have h0 : (0 : ℤ) < (n : ℤ) := by exact_mod_cast hn
  have h1 := Int.emod_lt_of_pos i h0
  have h2 := Int.emod_nonneg i (by omega : (n : ℤ) ≠ 0)
  unfold wrap
  omega

theorem wrap_coe (n : ℕ) (i : ℤ) (hn : 0 < n) : (wrap n i : ℤ) = i % (n : ℤ) := by
  have h0 : (0 : ℤ) < (n : ℤ) := by exact_mod_cast hn
  have h2 := Int.emod_nonneg i (by omega : (n : ℤ) ≠ 0)
  unfold wrap
  omega

theorem wrap_self (n y : ℕ) (hy : y < n) : wrap n (y : ℤ) = y := by
  unfold wrap
  rw [Int.emod_eq_of_lt (by positivity) (by exact_mod_cast hy)]
  simp

theorem mkG_length (h w : ℕ) (f : ℕ → ℕ → ℤ) : (mkG h w f).length = h := by
  simp [mkG]

theorem gridHeight_mkG (h w : ℕ) (f : ℕ → ℕ → ℤ) : gridHeight (mkG h w f) = h := by
  simp [gridHeight, mkG]

theorem gridWidth_mkG (h w : ℕ) (f : ℕ → ℕ → ℤ) (hh : 0 < h) :
    gridWidth (mkG h w f) = w := by
  cases h with
  | zero => omega
  | succ n => simp [gridWidth, mkG, List.range_succ_eq_map]

theorem rect_mkG (h w : ℕ) (f : ℕ → ℕ → ℤ) : Rect h w (mkG h w f) := by
  constructor
  · simp [mkG]
  · intro row hrow
    simp [mkG] at hrow
    obtain ⟨y, _, rfl⟩ := hrow
    simp

theorem cellAt_mkG (h w : ℕ) (f : ℕ → ℕ → ℤ) (y x : ℕ) (hy : y < h) (hx : x < w) :
    cellAt (mkG h w f) y x = f y x := by
  simp [cellAt, mkG, List.getD_eq_getElem?_getD, List.getElem?_map, List.getElem?_range, hy, hx]

theorem mkG_congr (h w : ℕ) (f f' : ℕ → ℕ → ℤ)
    (hf : ∀ y, y < h → ∀ x, x < w → f y x = f' y x) : mkG h w f = mkG h w f' := by
  unfold mkG
  refine List.map_congr_left (fun y hy => ?_)
  rw [List.mem_range] at hy
  exact List.map_congr_left (fun x hx => hf y hy x (List.mem_range.mp hx))

theorem gridHeight_of_rect (hgt wd : ℕ) (g : Grid) (hr : Rect hgt wd g) :
    gridHeight g = hgt := hr.1

theorem gridWidth_of_rect (hgt wd : ℕ) (g : Grid) (hr : Rect hgt wd g) (hh : 0 < hgt) :
    gridWidth g = wd := by
  obtain ⟨h1, h2⟩ := hr
  cases g with
  | nil => simp [gridHeight] at h1; omega
  | cons row rest => simpa [gridWidth] using h2 row (by simp)

/-- The rolled-array neighbor sum of the source equals the spec's
`neighbor_count`: the two range over the same eight wrapped positions. -/
theorem neighbors_eq_neighbor_count (g : Grid) (x y : ℕ) :
    neighbors g y x = neighbor_count g x y := by
  simp only [neighbors, neighbor_count, offsets_eq, List.map_cons, List.map_nil,
    List.sum_cons, List.sum_nil, rollCell]
  simp only [sub_neg_eq_add, sub_zero, add_zero, ← sub_eq_add_neg]
  ring

theorem rect_update_state (g : Grid) :
    Rect (gridHeight g) (gridWidth g) (update_state g) := rect_mkG _ _ _

theorem cellAt_update_state (g : Grid) (y x : ℕ)
    (hy : y < gridHeight g) (hx : x < gridWidth g) :
    cellAt (update_state g) y x =
      if (cellAt g y x = 1 ∧ (neighbors g y x = 2 ∨ neighbors g y x = 3)) ∨
         (cellAt g y x = 0 ∧ neighbors g y x = 3) then 1 else 0 :=
  cellAt_mkG _ _ _ y x hy hx

/-! ### C1: the advance rule -/

/-- C1: for every rectangular grid, `update_state` produces a grid of the
same dimensions in which a cell `(x, y)` is alive (holds 1) iff it was alive
with 8-neighbor count 2 or 3, or dead (holds 0) with 8-neighbor count exactly
3, where `neighbor_count` sums the alive state over the 8 positions
`(x+dx, y+dy)`, `dx, dy ∈ {-1,0,1}` excluding `(0,0)`, coordinates taken
modulo width/height (toroidal wraparound). -/
theorem advance_dims_and_rule (g : Grid) (hgt wd : ℕ) (hr : Rect hgt wd g)
    (x y : ℕ) (hx : x < wd) (hy : y < hgt) :
    Rect hgt wd (update_state g) ∧
    (cellAt (update_state g) y x = 1 ↔
      (cellAt g y x = 1 ∧ (neighbor_count g x y = 2 ∨ neighbor_count g x y = 3)) ∨
      (cellAt g y x = 0 ∧ neighbor_count g x y = 3)) := by
  have hh : gridHeight g = hgt := hr.1
  have hpos : 0 < hgt := by omega
  have hw : gridWidth g = wd := gridWidth_of_rect hgt wd g hr hpos
  constructor
  · rw [update_state, hh, hw]
    exact rect_mkG _ _ _
  · rw [cellAt_update_state g y x (by omega) (by omega),
      ← neighbors_eq_neighbor_count]
    split_ifs with hcond
    · simp [hcond]
    · simp [hcond]

theorem advance_dims_and_rule_witness :
    Rect 2 2 (update_state [[1, 1], [0, 0]]) ∧
    (cellAt (update_state [[1, 1], [0, 0]]) 0 0 = 1 ↔
      (cellAt [[1, 1], [0, 0]] 0 0 = 1 ∧
        (neighbor_count [[1, 1], [0, 0]] 0 0 = 2 ∨
         neighbor_count [[1, 1], [0, 0]] 0 0 = 3)) ∨
      (cellAt [[1, 1], [0, 0]] 0 0 = 0 ∧ neighbor_count [[1, 1], [0, 0]] 0 0 = 3)) :=
  advance_dims_and_rule [[1, 1], [0, 0]] 2 2 ⟨rfl, by decide⟩ 0 0 (by decide) (by decide)

/-! ### C2: determinism -/

/-- C2: the advanced grid is a pure function of the input generation's grid
alone (never of the partially updated grid or of any other state): it equals
`update_state` of the old grid, and two states with equal grids advance to
equal grids. -/
theorem advance_deterministic (s t : GameState) (hgrid : s.grid = t.grid) :
    (update_state_op s).grid = update_state s.grid ∧
    (update_state_op s).grid = (update_state_op t).grid := by
  constructor
  · rfl
  · simp [update_state_op, update_plot, hgrid]

theorem advance_deterministic_witness :
    (update_state_op (GameState.mk [[1, 0], [1, 0]] 0 [])).grid =
      update_state [[1, 0], [1, 0]] ∧
    (update_state_op (GameState.mk [[1, 0], [1, 0]] 0 [])).grid =
      (update_state_op (GameState.mk [[1, 0], [1, 0]] 7 [4, 2])).grid :=
  advance_deterministic (GameState.mk [[1, 0], [1, 0]] 0 [])
    (GameState.mk [[1, 0], [1, 0]] 7 [4, 2]) rfl

/-! ### C3: clear and reset -/

theorem liveCount_clearCells (g : Grid) : liveCount (clearCells g) = 0 := by
  unfold liveCount clearCells
  rw [List.map_map]
  induction g with
  | nil => rfl
  | cons row rest ih => simp_all [List.map_const']

/-- C3 as stated is false at this input: after `reset` has emptied the
history, the growth series computed by line 119's formula `[0] + [...]` is
the one-element sequence `[0]`, not an empty sequence. -/
theorem reset_growth_series_ne_empty :
    growth_series (resetMetrics (GameState.mk [[1, 0], [0, 1]] 3 [2, 2])).live_history ≠ [] := by
  decide

/-- C3 amended: after `clear_grid` the live count is 0, and after the reset
step (`live_history = []`) the history and the occupancy series are empty,
while the growth series is the one-element sequence `[0]` (the code's
formula `[0] + [...]` never yields an empty list). -/
theorem clear_then_live_count_zero_and_reset_series (gs : ℕ) (s : GameState) :
    liveCount (clear_grid s).grid = 0 ∧
    (resetMetrics s).live_history = [] ∧
    occupancy_series gs (resetMetrics s).live_history = [] ∧
    growth_series (resetMetrics s).live_history = [0] := by
  refine ⟨?_, rfl, rfl, rfl⟩
  show liveCount (clearCells s.grid) = 0
  exact liveCount_clearCells s.grid

/-! ### C4: the three series are index-aligned -/

/-- C4: for every recorded (hence non-empty) history, the occupancy and
growth series have the same length as `live_history`, the growth series
starts with 0, and `growth[i] = live_history[i] - live_history[i-1]` for
`i ≥ 1`. -/
theorem series_index_aligned (gs : ℕ) (hist : List ℤ) (hne : hist ≠ []) :
    (occupancy_series gs hist).length = hist.length ∧
    (growth_series hist).length = hist.length ∧
    (growth_series hist).getD 0 0 = 0 ∧
    ∀ i, 1 ≤ i → i < hist.length →
      (growth_series hist).getD i 0 = hist.getD i 0 - hist.getD (i - 1) 0 := by
  have hlen : 0 < hist.length := List.length_pos.mpr hne
  refine ⟨by simp only [occupancy_series, List.length_map], ?_, rfl, ?_⟩
  · simp only [growth_series, List.length_append, List.length_map,
      List.length_range', List.length_singleton]
    omega
  · intro i h1 h2
    obtain ⟨j, rfl⟩ : ∃ j, i = j + 1 := ⟨i - 1, by omega⟩
    have hj : j < hist.length - 1 := by omega
    simp only [growth_series, List.singleton_append, List.getD_cons_succ]
    have h15 : 1 + 1 * j = j + 1 := by omega
    rw [List.getD_eq_getElem?_getD, List.getElem?_map, List.getElem?_range' 1 1 hj, h15]
    rfl

theorem series_index_aligned_witness :
    (occupancy_series 4 ([3, 5] : List ℤ)).length = ([3, 5] : List ℤ).length ∧
    (growth_series ([3, 5] : List ℤ)).length = ([3, 5] : List ℤ).length ∧
    (growth_series ([3, 5] : List ℤ)).getD 0 0 = 0 ∧
    (∀ i, 1 ≤ i → i < ([3, 5] : List ℤ).length →
      (growth_series ([3, 5] : List ℤ)).getD i 0 =
        ([3, 5] : List ℤ).getD i 0 - ([3, 5] : List ℤ).getD (i - 1) 0) :=
  series_index_aligned 4 [3, 5] (by decide)

/-! ### C6: occupancy is exact -/

/-- C6: every occupancy entry is exactly `live_history[i] / (width*height) * 100`
(the grid is `grid_size × grid_size`, so `width*height = gs*gs`). -/
theorem occupancy_series_exact (gs : ℕ) (hist : List ℤ) (i : ℕ) (hi : i < hist.length) :
    (occupancy_series gs hist).getD i 0 =
      ((hist.getD i 0 : ℚ) / ((gs : ℚ) * (gs : ℚ))) * 100 := by
  rw [occupancy_series, List.getD_eq_getElem?_getD, List.getElem?_map,
    List.getElem?_eq_getElem hi, List.getD_eq_getElem hist 0 hi]
  show ((hist[i] : ℚ) / ((gs : ℚ) ^ 2)) * 100 = ((hist[i] : ℚ) / ((gs : ℚ) * (gs : ℚ))) * 100
  rw [pow_two]

theorem occupancy_series_exact_witness :
    (occupancy_series 5 ([5, 3] : List ℤ)).getD 1 0 =
      ((([5, 3] : List ℤ).getD 1 0 : ℚ) / ((5 : ℚ) * (5 : ℚ))) * 100 :=
  occupancy_series_exact 5 [5, 3] 1 (by decide)

/-! ### Toggling and bounds (C7, C8, C9) -/

theorem set_getD_self {α : Type} (l : List α) (i : ℕ) (d : α) (h : i < l.length) :
    l.set i (l.getD i d) = l := by
  apply List.ext_getElem?
  intro j
  rw [List.getElem?_set]
  by_cases hij : i = j
  · subst hij
    simp [h, List.getD_eq_getElem l d h, List.getElem?_eq_getElem h]
  · simp [hij]

theorem getD_set_self {α : Type} (l : List α) (i : ℕ) (a d : α) (h : i < l.length) :
    (l.set i a).getD i d = a := by
  rw [List.getD_eq_getElem?_getD, List.getElem?_set]
  simp [h]

theorem getD_set_ne {α : Type} (l : List α) (i j : ℕ) (a d : α) (hij : i ≠ j) :
    (l.set i a).getD j d = l.getD j d := by
  rw [List.getD_eq_getElem?_getD, List.getElem?_set, if_neg hij,
    ← List.getD_eq_getElem?_getD]

theorem cellAt_toggle_self (g : Grid) (y x : ℕ)
    (hy : y < g.length) (hx : x < (g.getD y []).length) :
    cellAt (toggle_cell g y x) y x = 1 - cellAt g y x := by
  unfold toggle_cell cellAt
  rw [getD_set_self g y _ [] hy, getD_set_self _ x _ 0 (by simpa using hx)]

theorem cellAt_toggle_ne (g : Grid) (y x y' x' : ℕ) (hne : ¬(y' = y ∧ x' = x)) :
    cellAt (toggle_cell g y x) y' x' = cellAt g y' x' := by
  unfold toggle_cell cellAt
  by_cases hyy : y = y'
  · subst hyy
    have hxx : x ≠ x' := fun hxx => hne ⟨rfl, hxx.symm⟩
    by_cases hylen : y < g.length
    · rw [getD_set_self g y _ [] hylen, getD_set_ne _ x x' _ 0 hxx]
    · rw [List.set_eq_of_length_le (by omega)]
  · rw [getD_set_ne _ y y' _ [] hyy]

/-- C8: toggling is an involution: on a rectangular grid, toggling an
in-bounds cell maps its value `v` to `1 - v`, leaves every other cell
unchanged, and toggling twice restores exactly the original grid. -/
theorem toggle_cell_involutive (gs : ℕ) (g : Grid) (y x : ℕ) (hr : Rect gs gs g)
    (hy : y < gs) (hx : x < gs) :
    toggle_cell (toggle_cell g y x) y x = g ∧
    cellAt (toggle_cell g y x) y x = 1 - cellAt g y x ∧
    (∀ y' x', ¬(y' = y ∧ x' = x) → cellAt (toggle_cell g y x) y' x' = cellAt g y' x') := by
  obtain ⟨hlen, hrow⟩ := hr
  have hylen : y < g.length := by omega
  have hmem : g.getD y [] ∈ g := by
    rw [List.getD_eq_getElem g [] hylen]
    exact List.getElem_mem hylen
  have hxlen : x < (g.getD y []).length := by rw [hrow _ hmem]; omega
  refine ⟨?_, cellAt_toggle_self g y x hylen hxlen, cellAt_toggle_ne g y x⟩
  have hcell : cellAt (toggle_cell g y x) y x = 1 - cellAt g y x :=
    cellAt_toggle_self g y x hylen hxlen
  have step1 : toggle_cell (toggle_cell g y x) y x
      = (toggle_cell g y x).set y (((toggle_cell g y x).getD y []).set x
          (1 - cellAt (toggle_cell g y x) y x)) := rfl
  have hrow : (toggle_cell g y x).getD y [] = (g.getD y []).set x (1 - cellAt g y x) := by
    unfold toggle_cell
    exact getD_set_self g y _ [] hylen
  rw [step1, hcell, hrow]
  show (g.set y ((g.getD y []).set x (1 - cellAt g y x))).set y
      (((g.getD y []).set x (1 - cellAt g y x)).set x (1 - (1 - cellAt g y x))) = g
  rw [List.set_set, List.set_set]
  have h2 : (1 : ℤ) - (1 - cellAt g y x) = cellAt g y x := by ring
  rw [h2]
  show g.set y ((g.getD y []).set x ((g.getD y []).getD x 0)) = g
  rw [set_getD_self _ x 0 hxlen, set_getD_self g y [] hylen]

theorem toggle_cell_involutive_witness :
    toggle_cell (toggle_cell [[0, 1], [1, 0]] 0 1) 0 1 = [[0, 1], [1, 0]] ∧
    cellAt (toggle_cell [[0, 1], [1, 0]] 0 1) 0 1 = 1 - cellAt [[0, 1], [1, 0]] 0 1 ∧
    (∀ y' x', ¬(y' = 0 ∧ x' = 1) →
      cellAt (toggle_cell [[0, 1], [1, 0]] 0 1) y' x' = cellAt [[0, 1], [1, 0]] y' x') :=
  toggle_cell_involutive 2 [[0, 1], [1, 0]] 0 1 ⟨rfl, by decide⟩ (by decide) (by decide)

/-- C7 as stated is false at this input: on a 2×2 grid, the click handler at
the out-of-bounds coordinate `x = 2` returns normally with the grid
unchanged — the call is silently ignored, no `OutOfBounds` failure is
raised. -/
theorem mousePress_oob_silently_ignored :
    mousePress 2 [[0, 0], [0, 0]] 2 0 = [[0, 0], [0, 0]] := by
  decide

/-- C7 amended: the click handler bounds-checks its cell coordinates: an
in-bounds `(x, y)` toggles exactly that cell (`v` becomes `1 - v`), while a
coordinate outside `[0, grid_size)` leaves the grid entirely unchanged (the
call is silently ignored; there is no failure path). -/
theorem mousePress_checks_bounds (gs : ℕ) (g : Grid) (x y : ℤ) (hr : Rect gs gs g) :
    (0 ≤ x ∧ x < (gs : ℤ) ∧ 0 ≤ y ∧ y < (gs : ℤ) →
      mousePress gs g x y = toggle_cell g y.toNat x.toNat ∧
      cellAt (mousePress gs g x y) y.toNat x.toNat = 1 - cellAt g y.toNat x.toNat) ∧
    (¬(0 ≤ x ∧ x < (gs : ℤ) ∧ 0 ≤ y ∧ y < (gs : ℤ)) →
      mousePress gs g x y = g) := by
  constructor
  · intro hin
    have heq : mousePress gs g x y = toggle_cell g y.toNat x.toNat := if_pos hin
    refine ⟨heq, ?_⟩
    rw [heq]
    obtain ⟨hx0, hxlt, hy0, hylt⟩ := hin
    have hy' : y.toNat < gs := by omega
    have hx' : x.toNat < gs := by omega
    exact (toggle_cell_involutive gs g y.toNat x.toNat hr hy' hx').2.1
  · intro hout
    exact if_neg hout

theorem mousePress_checks_bounds_witness :
    (0 ≤ (1 : ℤ) ∧ (1 : ℤ) < (2 : ℤ) ∧ 0 ≤ (0 : ℤ) ∧ (0 : ℤ) < (2 : ℤ) →
      mousePress 2 [[0, 1], [1, 0]] 1 0 = toggle_cell [[0, 1], [1, 0]] (0 : ℤ).toNat (1 : ℤ).toNat ∧
      cellAt (mousePress 2 [[0, 1], [1, 0]] 1 0) (0 : ℤ).toNat (1 : ℤ).toNat =
        1 - cellAt [[0, 1], [1, 0]] (0 : ℤ).toNat (1 : ℤ).toNat) ∧
    (¬(0 ≤ (1 : ℤ) ∧ (1 : ℤ) < (2 : ℤ) ∧ 0 ≤ (0 : ℤ) ∧ (0 : ℤ) < (2 : ℤ)) →
      mousePress 2 [[0, 1], [1, 0]] 1 0 = [[0, 1], [1, 0]]) :=
  mousePress_checks_bounds 2 [[0, 1], [1, 0]] 1 0 ⟨rfl, by decide⟩

/-! ### C9: every operation preserves the grid's dimensions -/

theorem rect_clearCells (gs : ℕ) (g : Grid) (hr : Rect gs gs g) :
    Rect gs gs (clearCells g) := by
  obtain ⟨hlen, hrow⟩ := hr
  constructor
  · simp [clearCells, hlen]
  · intro row hmem
    simp only [clearCells, List.mem_map] at hmem
    obtain ⟨r, hrg, rfl⟩ := hmem
    simp [hrow r hrg]

theorem rect_toggle_cell (gs : ℕ) (g : Grid) (y x : ℕ) (hr : Rect gs gs g) :
    Rect gs gs (toggle_cell g y x) := by
  obtain ⟨hlen, hrow⟩ := hr
  by_cases hylen : y < g.length
  · constructor
    · simp [toggle_cell, hlen]
    · intro row hmem
      rcases List.mem_or_eq_of_mem_set hmem with hin | rfl
      · exact hrow row hin
      · rw [List.length_set]
        apply hrow
        rw [List.getD_eq_getElem g [] hylen]
        exact List.getElem_mem hylen
  · rw [toggle_cell, List.set_eq_of_length_le (by omega)]
    exact ⟨hlen, hrow⟩

theorem rect_mousePress (gs : ℕ) (g : Grid) (x y : ℤ) (hr : Rect gs gs g) :
    Rect gs gs (mousePress gs g x y) := by
  unfold mousePress
  split_ifs with hin
  · exact rect_toggle_cell gs g y.toNat x.toNat hr
  · exact hr

theorem rect_update_state_of_rect (gs : ℕ) (g : Grid) (hr : Rect gs gs g) :
    Rect gs gs (update_state g) := by
  rcases Nat.eq_zero_or_pos gs with hz | hpos
  · subst hz
    have hnil : g = [] := List.length_eq_zero.mp hr.1
    subst hnil
    exact ⟨rfl, by intro row hmem; simp [update_state, mkG, gridHeight] at hmem⟩
  · rw [update_state, gridHeight_of_rect gs gs g hr, gridWidth_of_rect gs gs g hr hpos]
    exact rect_mkG gs gs _

/-- C9: `update_state`, `clear_grid`, `randomize_grid` and the click-toggle
all preserve the grid's width and height: from a `gs × gs` grid each produces
a `gs × gs` grid (the in-place array mutation never changes the shape). -/
theorem core_ops_preserve_dims (gs : ℕ) (g : Grid) (rnd : ℕ → ℕ → Bool)
    (y x : ℕ) (xc yc : ℤ) (hr : Rect gs gs g) :
    Rect gs gs (update_state g) ∧
    Rect gs gs (clearCells g) ∧
    Rect gs gs (randomCells gs rnd) ∧
    Rect gs gs (toggle_cell g y x) ∧
    Rect gs gs (mousePress gs g xc yc) :=
  ⟨rect_update_state_of_rect gs g hr, rect_clearCells gs g hr,
   rect_mkG gs gs _, rect_toggle_cell gs g y x hr, rect_mousePress gs g xc yc hr⟩

theorem core_ops_preserve_dims_witness :
    Rect 2 2 (update_state [[1, 0], [0, 1]]) ∧
    Rect 2 2 (clearCells [[1, 0], [0, 1]]) ∧
    Rect 2 2 (randomCells 2 (fun _ _ => true)) ∧
    Rect 2 2 (toggle_cell [[1, 0], [0, 1]] 0 0) ∧
    Rect 2 2 (mousePress 2 [[1, 0], [0, 1]] 3 0) :=
  core_ops_preserve_dims 2 [[1, 0], [0, 1]] (fun _ _ => true) 0 0 3 0 ⟨rfl, by decide⟩

/-! ### C10: recorded live counts and occupancy are bounded -/

/-- The full well-formedness invariant of `self.grid`: a `gs × gs` array
whose entries are all 0 or 1. -/
def WF01 (gs : ℕ) (g : Grid) : Prop :=
  Rect gs gs g ∧ ∀ row ∈ g, ∀ c ∈ row, c = 0 ∨ c = 1

theorem cells_mkG_01 (h w : ℕ) (f : ℕ → ℕ → ℤ) (hf : ∀ y x, f y x = 0 ∨ f y x = 1) :
    ∀ row ∈ mkG h w f, ∀ c ∈ row, c = 0 ∨ c = 1 := by
  intro row hrow c hc
  simp only [mkG, List.mem_map, List.mem_range] at hrow
  obtain ⟨y, _, rfl⟩ := hrow
  simp only [List.mem_map, List.mem_range] at hc
  obtain ⟨x, _, rfl⟩ := hc
  exact hf y x

theorem wf01_update_state (gs : ℕ) (g : Grid) (h : WF01 gs g) :
    WF01 gs (update_state g) := by
  refine ⟨rect_update_state_of_rect gs g h.1, ?_⟩
  rw [update_state]
  exact cells_mkG_01 _ _ _ (fun y x => by split_ifs <;> simp)

theorem wf01_clearCells (gs : ℕ) (g : Grid) (h : WF01 gs g) :
    WF01 gs (clearCells g) := by
  refine ⟨rect_clearCells gs g h.1, ?_⟩
  intro row hrow c hc
  simp only [clearCells, List.mem_map] at hrow
  obtain ⟨r, _, rfl⟩ := hrow
  simp only [List.mem_map] at hc
  obtain ⟨_, _, rfl⟩ := hc
  left
  rfl

theorem wf01_randomCells (gs : ℕ) (r : ℕ → ℕ → Bool) :
    WF01 gs (randomCells gs r) := by
  refine ⟨rect_mkG gs gs _, ?_⟩
  exact cells_mkG_01 _ _ _ (fun y x => by split_ifs <;> simp)

theorem cell01_of_wf (gs : ℕ) (g : Grid) (h : WF01 gs g) (y x : ℕ) :
    cellAt g y x = 0 ∨ cellAt g y x = 1 := by
  unfold cellAt
  by_cases hy : y < g.length
  · have hmem : g.getD y [] ∈ g := by
      rw [List.getD_eq_getElem g [] hy]
      exact List.getElem_mem hy
    by_cases hx : x < (g.getD y []).length
    · exact h.2 _ hmem _ (by
        rw [List.getD_eq_getElem _ 0 hx]
        exact List.getElem_mem hx)
    · left
      rw [List.getD_eq_getElem?_getD, List.getElem?_eq_none (by omega)]
      rfl
  · left
    rw [List.getD_eq_getElem?_getD g y [], List.getElem?_eq_none (by omega)]
    rfl

theorem wf01_toggle_cell (gs : ℕ) (g : Grid) (y x : ℕ) (h : WF01 gs g) :
    WF01 gs (toggle_cell g y x) := by
  refine ⟨rect_toggle_cell gs g y x h.1, ?_⟩
  intro row hrow c hc
  rcases List.mem_or_eq_of_mem_set hrow with hin | rfl
  · exact h.2 row hin c hc
  · rcases List.mem_or_eq_of_mem_set hc with hcin | rfl
    · by_cases hy : y < g.length
      · refine h.2 (g.getD y []) ?_ c hcin
        rw [List.getD_eq_getElem g [] hy]
        exact List.getElem_mem hy
      · rw [List.getD_eq_getElem?_getD g y [], List.getElem?_eq_none (by omega)] at hcin
        exact absurd hcin (List.not_mem_nil c)
    · rcases cell01_of_wf gs g h y x with h0 | h1
      · right
        rw [h0]
        rfl
      · left
        rw [h1]
        rfl

theorem wf01_mousePress (gs : ℕ) (g : Grid) (x y : ℤ) (h : WF01 gs g) :
    WF01 gs (mousePress gs g x y) := by
  unfold mousePress
  split_ifs with hin
  · exact wf01_toggle_cell gs g y.toNat x.toNat h
  · exact h

theorem liveCount_bounds (gs : ℕ) (g : Grid) (h : WF01 gs g) :
    0 ≤ liveCount g ∧ liveCount g ≤ (gs : ℤ) * gs := by
  obtain ⟨⟨hlen, hrows⟩, hcells⟩ := h
  have hrow : ∀ row ∈ g, 0 ≤ row.sum ∧ row.sum ≤ (gs : ℤ) := by
    intro row hmem
    constructor
    · exact List.sum_nonneg (fun c hc => by rcases hcells row hmem c hc with rfl | rfl <;> norm_num)
    · calc row.sum ≤ row.length • (1 : ℤ) :=
            List.sum_le_card_nsmul row 1
              (fun c hc => by rcases hcells row hmem c hc with rfl | rfl <;> norm_num)
        _ = (gs : ℤ) := by rw [hrows row hmem]; simp
  constructor
  · apply List.sum_nonneg
    intro z hz
    simp only [List.mem_map] at hz
    obtain ⟨row, hmem, rfl⟩ := hz
    exact (hrow row hmem).1
  · calc (g.map List.sum).sum
        ≤ (g.map List.sum).length • ((gs : ℤ)) := by
          apply List.sum_le_card_nsmul
          intro z hz
          simp only [List.mem_map] at hz
          obtain ⟨row, hmem, rfl⟩ := hz
          exact (hrow row hmem).2
      _ = (gs : ℤ) * gs := by
          rw [List.length_map, hlen]
          simp [mul_comm]

/-- Every state reachable by driving the widget has a well-formed 0/1 grid
and only records live counts within `[0, gs*gs]`. -/
theorem reachable_invariant (gs : ℕ) (s : GameState) (h : Reachable gs s) :
    WF01 gs s.grid ∧ ∀ v ∈ s.live_history, 0 ≤ v ∧ v ≤ (gs : ℤ) * gs := by
  induction h with
  | init r =>
      exact ⟨wf01_randomCells gs r, by intro v hv; simp [initState] at hv⟩
  | step s hs ih =>
      obtain ⟨hwf, hhist⟩ := ih
      have hwf2 : WF01 gs (update_state s.grid) := wf01_update_state gs s.grid hwf
      refine ⟨hwf2, ?_⟩
      intro v hv
      rcases List.mem_append.mp hv with hold | hnew
      · exact hhist v hold
      · rw [List.mem_singleton.mp hnew]
        exact liveCount_bounds gs _ hwf2
  | clear s hs ih =>
      obtain ⟨hwf, hhist⟩ := ih
      have hwf2 : WF01 gs (clearCells s.grid) := wf01_clearCells gs s.grid hwf
      refine ⟨hwf2, ?_⟩
      intro v hv
      rcases List.mem_append.mp hv with hold | hnew
      · exact absurd hold (List.not_mem_nil v)
      · rw [List.mem_singleton.mp hnew]
        exact liveCount_bounds gs _ hwf2
  | rand s r hs ih =>
      have hwf2 : WF01 gs (randomCells gs r) := wf01_randomCells gs r
      refine ⟨hwf2, ?_⟩
      intro v hv
      rcases List.mem_append.mp hv with hold | hnew
      · exact absurd hold (List.not_mem_nil v)
      · rw [List.mem_singleton.mp hnew]
        exact liveCount_bounds gs _ hwf2
  | press s x y hs ih =>
      exact ⟨wf01_mousePress gs s.grid x y ih.1, ih.2⟩

/-- C10: in every reachable state, every value recorded into `live_history`
lies in `[0, gs*gs]` (it is the sum of a grid of 0/1 cells) and every
occupancy value lies in `[0, 100]`. -/
theorem recorded_live_counts_bounded (gs : ℕ) (s : GameState) (h : Reachable gs s) :
    (∀ v ∈ s.live_history, 0 ≤ v ∧ v ≤ (gs : ℤ) * gs) ∧
    (∀ q ∈ occupancy_series gs s.live_history, 0 ≤ q ∧ q ≤ 100) := by
  have hinv := reachable_invariant gs s h
  refine ⟨hinv.2, ?_⟩
  intro q hq
  simp only [occupancy_series, List.mem_map] at hq
  obtain ⟨v, hv, rfl⟩ := hq
  obtain ⟨hv0, hvle⟩ := hinv.2 v hv
  rcases Nat.eq_zero_or_pos gs with hz | hpos
  · subst hz
    norm_num
  · have hgs2 : (0 : ℚ) < (gs : ℚ) ^ 2 := by positivity
    constructor
    · apply mul_nonneg _ (by norm_num)
      exact div_nonneg (by exact_mod_cast hv0) hgs2.le
    · have hle : (v : ℚ) ≤ (gs : ℚ) ^ 2 := by
        rw [sq]
        exact_mod_cast hvle
      calc (v : ℚ) / (gs : ℚ) ^ 2 * 100
          ≤ 1 * 100 := by
            apply mul_le_mul_of_nonneg_right _ (by norm_num)
            exact (div_le_one hgs2).mpr hle
        _ = 100 := one_mul 100

theorem recorded_live_counts_bounded_witness :
    (∀ v ∈ (update_state_op (initState 1 (fun _ _ => true))).live_history,
        0 ≤ v ∧ v ≤ (1 : ℤ) * 1) ∧
    (∀ q ∈ occupancy_series 1 (update_state_op (initState 1 (fun _ _ => true))).live_history,
        0 ≤ q ∧ q ≤ 100) :=
  recorded_live_counts_bounded 1 (update_state_op (initState 1 (fun _ _ => true)))
    (Reachable.step _ (Reachable.init (fun _ _ => true)))

/-! ### C5: the blinker oscillates with period exactly 2 -/

theorem wrap_add_one (n t : ℕ) (ht : t < n) :
    wrap n ((t : ℤ) + 1) = if t + 1 = n then 0 else t + 1 := by
  split_ifs with h
  · have he : ((t : ℤ) + 1) = (n : ℤ) := by omega
    unfold wrap
    rw [he, Int.emod_self]
    rfl
  · have hlt : (t : ℤ) + 1 < (n : ℤ) := by omega
    unfold wrap
    rw [Int.emod_eq_of_lt (by positivity) hlt]
    omega

theorem wrap_sub_one (n t : ℕ) (hn : 0 < n) (ht : t < n) :
    wrap n ((t : ℤ) - 1) = if t = 0 then n - 1 else t - 1 := by
  split_ifs with h
  · subst h
    have h1 : ((-1 : ℤ) + (n : ℤ) * 1) % (n : ℤ) = (-1 : ℤ) % (n : ℤ) :=
      Int.add_mul_emod_self_left (-1) (n : ℤ) 1
    have h2 : ((-1 : ℤ) + (n : ℤ) * 1) = (n : ℤ) - 1 := by ring
    have h3 : ((n : ℤ) - 1) % (n : ℤ) = (n : ℤ) - 1 :=
      Int.emod_eq_of_lt (by omega) (by omega)
    have h4 : (-1 : ℤ) % (n : ℤ) = (n : ℤ) - 1 := by
      rw [← h1, h2, h3]
    unfold wrap
    norm_num
    rw [h4]
    omega
  · have h0 : (0 : ℤ) ≤ (t : ℤ) - 1 := by omega
    have hlt : (t : ℤ) - 1 < (n : ℤ) := by omega
    unfold wrap
    rw [Int.emod_eq_of_lt h0 hlt]
    omega

/-- Indicator of the blinker's center line (index 2). -/
def ind2 (t : ℕ) : ℤ := if t = 2 then 1 else 0

/-- Indicator of the blinker's occupied band (indices 1, 2, 3). -/
def ind13 (t : ℕ) : ℤ := if 1 ≤ t ∧ t ≤ 3 then 1 else 0

/-- The horizontal blinker on a `gs × gs` torus: exactly the three
horizontally adjacent cells `(1,2), (2,2), (3,2)` (columns 1-3 of row 2) are
alive, every other cell is dead. -/
def blinkerH (gs : ℕ) : Grid := mkG gs gs (fun y x => ind2 y * ind13 x)

/-- The vertical blinker: rows 1-3 of column 2 alive. -/
def blinkerV (gs : ℕ) : Grid := mkG gs gs (fun y x => ind13 y * ind2 x)

/-- The wrapped three-term sum `f((t-1) mod gs) + f(t) + f((t+1) mod gs)`. -/
def sum3 (gs : ℕ) (f : ℕ → ℤ) (t : ℕ) : ℤ :=
  f (wrap gs ((t : ℤ) - 1)) + f t + f (wrap gs ((t : ℤ) + 1))

/-- For a grid whose cells factor as `r y * c x`, the 8-neighbor sum factors
into the product of two wrapped three-term sums minus the center cell. -/
theorem neighbors_mkG_prod (gs : ℕ) (hgs : 0 < gs) (r c : ℕ → ℤ) (y x : ℕ)
    (hy : y < gs) (hx : x < gs) :
    neighbors (mkG gs gs (fun a b => r a * c b)) y x
      = sum3 gs r y * sum3 gs c x - r y * c x := by
  have hH : gridHeight (mkG gs gs (fun a b => r a * c b)) = gs := gridHeight_mkG gs gs _
  have hW : gridWidth (mkG gs gs (fun a b => r a * c b)) = gs := gridWidth_mkG gs gs _ hgs
  have hcell : ∀ a b : ℤ,
      cellAt (mkG gs gs (fun a b => r a * c b)) (wrap gs a) (wrap gs b)
        = r (wrap gs a) * c (wrap gs b) := fun a b =>
    cellAt_mkG gs gs _ _ _ (wrap_lt gs hgs a) (wrap_lt gs hgs b)
  simp only [neighbors, offsets_eq, List.map_cons, List.map_nil, List.sum_cons,
    List.sum_nil, rollCell, hH, hW]
  simp only [hcell]
  simp only [sub_neg_eq_add, sub_zero]
  rw [wrap_self gs y hy, wrap_self gs x hx]
  unfold sum3
  ring

theorem sum3_ind2 (gs t : ℕ) (hgs : 5 ≤ gs) (ht : t < gs) :
    sum3 gs ind2 t = if 1 ≤ t ∧ t ≤ 3 then 1 else 0 := by
  rw [sum3, wrap_add_one gs t ht, wrap_sub_one gs t (by omega) ht]
  unfold ind2
  split_ifs <;> first | contradiction | omega

theorem sum3_ind13 (gs t : ℕ) (hgs : 5 ≤ gs) (ht : t < gs) :
    sum3 gs ind13 t =
      if t = 2 then 3
      else if t = 1 ∨ t = 3 then 2
      else if t = 0 ∨ t = 4 then 1
      else 0 := by
  rw [sum3, wrap_add_one gs t ht, wrap_sub_one gs t (by omega) ht]
  unfold ind13
  split_ifs <;> first | contradiction | omega

theorem update_blinkerH (gs : ℕ) (hgs : 5 ≤ gs) :
    update_state (blinkerH gs) = blinkerV gs := by
  have hgs0 : 0 < gs := by omega
  rw [update_state,
    show gridHeight (blinkerH gs) = gs from gridHeight_mkG gs gs _,
    show gridWidth (blinkerH gs) = gs from gridWidth_mkG gs gs _ hgs0,
    blinkerV]
  apply mkG_congr
  intro y hy x hx
  have hnb : neighbors (blinkerH gs) y x
      = sum3 gs ind2 y * sum3 gs ind13 x - ind2 y * ind13 x :=
    neighbors_mkG_prod gs hgs0 ind2 ind13 y x hy hx
  have hcell : cellAt (blinkerH gs) y x = ind2 y * ind13 x :=
    cellAt_mkG gs gs _ y x hy hx
  rw [hcell, hnb, sum3_ind2 gs y hgs hy, sum3_ind13 gs x hgs hx]
  unfold ind2 ind13
  split_ifs <;> first | contradiction | omega

theorem update_blinkerV (gs : ℕ) (hgs : 5 ≤ gs) :
    update_state (blinkerV gs) = blinkerH gs := by
  have hgs0 : 0 < gs := by omega
  rw [update_state,
    show gridHeight (blinkerV gs) = gs from gridHeight_mkG gs gs _,
    show gridWidth (blinkerV gs) = gs from gridWidth_mkG gs gs _ hgs0,
    blinkerH]
  apply mkG_congr
  intro y hy x hx
  have hnb : neighbors (blinkerV gs) y x
      = sum3 gs ind13 y * sum3 gs ind2 x - ind13 y * ind2 x :=
    neighbors_mkG_prod gs hgs0 ind13 ind2 y x hy hx
  have hcell : cellAt (blinkerV gs) y x = ind13 y * ind2 x :=
    cellAt_mkG gs gs _ y x hy hx
  rw [hcell, hnb, sum3_ind13 gs y hgs hy, sum3_ind2 gs x hgs hx]
  unfold ind2 ind13
  split_ifs <;> first | contradiction | omega

theorem blinkerV_ne_blinkerH (gs : ℕ) (hgs : 5 ≤ gs) : blinkerV gs ≠ blinkerH gs := by
  intro he
  have h1 : cellAt (blinkerV gs) 2 1 = cellAt (blinkerH gs) 2 1 := by rw [he]
  rw [blinkerV, blinkerH, cellAt_mkG gs gs _ 2 1 (by omega) (by omega),
    cellAt_mkG gs gs _ 2 1 (by omega) (by omega)] at h1
  unfold ind2 ind13 at h1
  norm_num at h1

/-- C5: the classic 3-cell horizontal blinker (cells `(2,1), (2,2), (2,3)`
alive and every other cell dead, on a `gs × gs` torus with `gs ≥ 5`, large
enough not to self-interact) returns to exactly its original configuration
after exactly 2 advances: two `update_state` steps restore it, while a
single step changes it. -/
theorem blinker_period_two (gs : ℕ) (hgs : 5 ≤ gs) :
    (∀ y x, y < gs → x < gs →
      (cellAt (blinkerH gs) y x = 1 ↔ y = 2 ∧ (x = 1 ∨ x = 2 ∨ x = 3))) ∧
    update_state (update_state (blinkerH gs)) = blinkerH gs ∧
    update_state (blinkerH gs) ≠ blinkerH gs := by
  refine ⟨?_, ?_, ?_⟩
  · intro y x hy hx
    rw [blinkerH, cellAt_mkG gs gs _ y x hy hx]
    unfold ind2 ind13
    split_ifs <;> first | contradiction | omega
  · rw [update_blinkerH gs hgs, update_blinkerV gs hgs]
  · rw [update_blinkerH gs hgs]
    exact blinkerV_ne_blinkerH gs hgs

theorem blinker_period_two_witness :
    (∀ y x, y < 5 → x < 5 →
      (cellAt (blinkerH 5) y x = 1 ↔ y = 2 ∧ (x = 1 ∨ x = 2 ∨ x = 3))) ∧
    update_state (update_state (blinkerH 5)) = blinkerH 5 ∧
    update_state (blinkerH 5) ≠ blinkerH 5 :=
  blinker_period_two 5 (by norm_num)

end Conway
